import Mathlib

/-!
Verification of the codebase2file directory-flattening tool (src/main.py).

Shallow embedding conventions:
* Paths are modelled as `String`s.  All paths handed to the core functions are
  assumed absolute and normalized (no `.` / `..` components, no repeated
  separators), which is what the program guarantees by calling
  `os.path.realpath` / `os.path.abspath` on its inputs before the core runs;
  under that assumption `os.path.abspath` is the identity.
* The filesystem is a finite tree (`FSTree` / `FSList`).  Directory-entry
  names are the strings a real `os.listdir` would return: they never contain
  a path separator and are unique within one directory.
* Reading a file has three observable outcomes in the program (decodes as
  text, raises `UnicodeDecodeError`, raises any other `Exception`); they are
  modelled by `FileContent`.
* String manipulation is done on `List Char` (`String.data`) with
  structurally recursive functions mirroring the Python string/`os.path`/
  `fnmatch` operations, ASCII case folding (the tool is run on ASCII
  file names).
-/

/-! ### Character-level primitives -/

/-- ASCII lower-casing of one character, as `str.lower` does on ASCII. -/
def lowerChar (c : Char) : Char :=
  if 'A' ≤ c && c ≤ 'Z' then Char.ofNat (c.toNat + 32) else c

def lowerChars (cs : List Char) : List Char := cs.map lowerChar

/-- `cs` starts with the character `c` (Python `str.startswith` with a
one-character argument). -/
def chHeadIs (cs : List Char) (c : Char) : Bool :=
  match cs with
  | [] => false
  | d :: _ => d == c

/-- `cs` ends with the character `c` (Python `str.endswith` with a
one-character argument). -/
def chEndsWith (cs : List Char) (c : Char) : Bool :=
  match cs.getLast? with
  | some d => d == c
  | none => false

/-- `needle` is a prefix of `hay`. -/
def chPre : List Char → List Char → Bool
  | [], _ => true
  | _ :: _, [] => false
  | a :: n, b :: h => a == b && chPre n h

/-- `needle` occurs as a contiguous substring of `hay`
(Python `needle in hay`). -/
def containsSub (needle : List Char) : List Char → Bool
  | [] => needle.isEmpty
  | c :: t => chPre needle (c :: t) || containsSub needle t

def isDigitChar (c : Char) : Bool := '0' ≤ c && c ≤ '9'

/-- The list starts with at least `k` decimal digits. -/
def startsWithDigits : Nat → List Char → Bool
  | 0, _ => true
  | _ + 1, [] => false
  | k + 1, c :: t => isDigitChar c && startsWithDigits k t

/-- Some position of the list starts a run of 5 consecutive decimal digits;
this is exactly when Python `re.search(r'\d{5,}', s)` finds a match. -/
def hasDigitRun5 : List Char → Bool
  | [] => false
  | c :: t => startsWithDigits 5 (c :: t) || hasDigitRun5 t

/-- Python `str.split(sep)` for a one-character separator:
`"".split(sep) = ['']`, empty chunks are kept. -/
def splitOnChar (sep : Char) : List Char → List (List Char)
  | [] => [[]]
  | c :: t =>
    if c == sep then [] :: splitOnChar sep t
    else
      match splitOnChar sep t with
      | [] => [[c]]
      | seg :: rest => (c :: seg) :: rest

/-- Python whitespace characters stripped by `str.strip()` (ASCII part). -/
def isSpaceChar (c : Char) : Bool :=
  c == ' ' || c == '\t' || c == '\n' || c == '\r' || c == '\x0b' || c == '\x0c'

/-- Python `str.strip()`. -/
def trimChars (cs : List Char) : List Char :=
  ((cs.dropWhile isSpaceChar).reverse.dropWhile isSpaceChar).reverse

/-- Code-point lexicographic `≤` on character lists; this is the order Python
uses to compare strings, hence the order of `sorted(os.listdir(d))`. -/
def lexLe : List Char → List Char → Bool
  | [], _ => true
  | _ :: _, [] => false
  | a :: l1, b :: l2 =>
    if a.toNat < b.toNat then true
    else if b.toNat < a.toNat then false
    else lexLe l1 l2

def joinSegs : List (List Char) → List Char
  | [] => []
  | [s] => s
  | s :: rest => s ++ '/' :: joinSegs rest

/-! ### The `os.path` model (POSIX flavour) -/

/-- `os.path.abspath` on an already-absolute, normalized path: the identity.
All paths fed to the core are of this shape (see the module comment). -/
def os_abspath (p : String) : String := p

/-- `os.path.basename`: everything after the last `/`
(`p[p.rfind('/') + 1:]`). -/
def os_basename (p : String) : String :=
  String.mk ((p.data.reverse.takeWhile (fun c => !(c == '/'))).reverse)

/-- Two-argument `os.path.join` on POSIX. -/
def os_join (a b : String) : String :=
  if chHeadIs b.data '/' then b
  else if a == "" || chEndsWith a.data '/' then a ++ b
  else a ++ "/" ++ b

/-- Length of the common prefix of two segment lists
(`os.path.commonprefix` on split paths). -/
def commonPrefixLen : List (List Char) → List (List Char) → Nat
  | a :: l1, b :: l2 => if a == b then 1 + commonPrefixLen l1 l2 else 0
  | _, _ => 0

/-- `os.path.relpath(path, start)` for absolute normalized arguments:
split both on `/`, drop empty segments, walk up with `..` past the common
prefix, and rejoin (result `.` when the lists coincide). -/
def os_relpath (path start : String) : String :=
  let pList := (splitOnChar '/' (os_abspath path).data).filter (fun x => !x.isEmpty)
  let sList := (splitOnChar '/' (os_abspath start).data).filter (fun x => !x.isEmpty)
  let i := commonPrefixLen sList pList
  let rel := List.replicate (sList.length - i) ('.' :: ['.']) ++ pList.drop i
  if rel.isEmpty then "." else String.mk (joinSegs rel)

/-- The extension part of `os.path.splitext p` (including the leading dot,
or `""`): the suffix of the basename starting at its last dot, except that a
basename consisting of leading dots only has no extension. -/
def os_splitext_ext (p : String) : String :=
  let base := (os_basename p).data
  let afterDot := base.reverse.takeWhile (fun c => !(c == '.'))
  if afterDot.length == base.length then ""
  else
    let pre := base.take (base.length - afterDot.length - 1)
    if pre.any (fun c => !(c == '.')) then String.mk ('.' :: afterDot.reverse) else ""

/-! ### The `fnmatch` model

`fnmatch.fnmatch(name, pat)` on POSIX translates `pat` to a regex
(`*` ↦ `.*` crossing separators, `?` ↦ any one char, `[...]` a character
class with `!` negation and `-` ranges, an unterminated `[` taken literally)
and matches `name` against the whole of it.  The translation is the
tokenizer `transGo`; matching is `globMatch`. -/

inductive ClsItem where
  | single (c : Char)
  | range (lo hi : Char)
deriving DecidableEq

inductive GlobTok where
  | star
  | anyChar
  | lit (c : Char)
  | cls (neg : Bool) (items : List ClsItem)
deriving DecidableEq

/-- Contents of a character class: `a-b` between two characters is a range,
anything else (including `-` first or last) is a literal, as in a regex
class. -/
def parseItems : List Char → List ClsItem
  | [] => []
  | a :: '-' :: b :: rest => .range a b :: parseItems rest
  | a :: rest => .single a :: parseItems rest

def hasClose : List Char → Bool
  | [] => false
  | ']' :: _ => true
  | _ :: t => hasClose t

/-- After an opening `[`, fnmatch's scan for the closing `]` skips a leading
`!` and then a leading `]` before searching; the class is terminated iff
that search finds a `]`. -/
def classTerminated : List Char → Bool
  | '!' :: ']' :: t => hasClose t
  | '!' :: t => hasClose t
  | ']' :: t => hasClose t
  | t => hasClose t

/-- Scanner state while tokenizing a glob pattern: normal text, or inside a
character class accumulating its content (reversed). -/
inductive ScanMode where
  | norm
  | inCls (neg : Bool) (acc : List Char)
deriving DecidableEq

/-- One-pass tokenizer for `fnmatch.translate`. -/
def transGo : ScanMode → List Char → List GlobTok
  | .norm, [] => []
  | .norm, '*' :: ps => .star :: transGo .norm ps
  | .norm, '?' :: ps => .anyChar :: transGo .norm ps
  | .norm, '[' :: ps =>
    if classTerminated ps then
      match ps with
      | '!' :: ']' :: t => transGo (.inCls true [']']) t
      | '!' :: t => transGo (.inCls true []) t
      | ']' :: t => transGo (.inCls false [']']) t
      | t => transGo (.inCls false []) t
    else .lit '[' :: transGo .norm ps
  | .norm, c :: ps => .lit c :: transGo .norm ps
  | .inCls _ _, [] => []
  | .inCls neg acc, ']' :: ps => .cls neg (parseItems acc.reverse) :: transGo .norm ps
  | .inCls neg acc, c :: ps => transGo (.inCls neg (c :: acc)) ps

def translateGlob (pat : List Char) : List GlobTok := transGo .norm pat

def clsItemMatch (c : Char) : ClsItem → Bool
  | .single a => c == a
  | .range lo hi => lo ≤ c && c ≤ hi

def matchCls (neg : Bool) (items : List ClsItem) (c : Char) : Bool :=
  items.any (clsItemMatch c) != neg

/-- `m` holds of some suffix of the list (the `.*` of a translated `*`). -/
def globStar (m : List Char → Bool) : List Char → Bool
  | [] => m []
  | c :: t => m (c :: t) || globStar m t

def globMatch : List GlobTok → List Char → Bool
  | [], [] => true
  | [], _ :: _ => false
  | .star :: ps, s => globStar (fun t => globMatch ps t) s
  | .anyChar :: _, [] => false
  | .anyChar :: ps, _ :: s => globMatch ps s
  | .lit _ :: _, [] => false
  | .lit c :: ps, d :: s => c == d && globMatch ps s
  | .cls _ _ :: _, [] => false
  | .cls neg items :: ps, d :: s => matchCls neg items d && globMatch ps s

def fnmatchChars (name pat : List Char) : Bool := globMatch (translateGlob pat) name

/-- `fnmatch.fnmatch(name, pat)` (POSIX `normcase` is the identity). -/
def fnmatch (name pat : String) : Bool := fnmatchChars name.data pat.data

/-! ### The filesystem model -/

/-- Outcome of opening and reading one file as UTF-8 text, the three cases
distinguished by the `try/except` in `process_directory`. -/
inductive FileContent where
  | text (s : String)
  | binary
  | readError (msg : String)
deriving DecidableEq

mutual
/-- A filesystem entry: a regular file (with its `os.path.getsize` and read
outcome) or a directory with its children. -/
inductive FSTree where
  | file (name : String) (size : Nat) (content : FileContent)
  | dir (name : String) (children : FSList)
deriving DecidableEq
/-- The children of a directory, in the (arbitrary) order `os.listdir` /
`os.scandir` yields them. -/
inductive FSList where
  | nil
  | cons (head : FSTree) (tail : FSList)
deriving DecidableEq
end

def FSTree.name : FSTree → String
  | .file n _ _ => n
  | .dir n _ => n

/-- Stable-for-distinct-keys insertion used to model `sorted(os.listdir d)`
(entry names within one directory are distinct). -/
def insertByName (t : FSTree) : FSList → FSList
  | .nil => .cons t .nil
  | .cons h rest =>
    if lexLe t.name.data h.name.data then .cons t (.cons h rest)
    else .cons h (insertByName t rest)

/-- `sorted(os.listdir d)` on a directory's children. -/
def sortByName : FSList → FSList
  | .nil => .nil
  | .cons h rest => insertByName h (sortByName rest)

/-! ### `read_gitignore` and the pattern list -/

/-- `read_gitignore`, given the text of the ignore file when it exists:
each line is stripped; non-empty lines not starting with `#` become
patterns, in file order. -/
def read_gitignore (gitignore : Option String) : List String :=
  match gitignore with
  | none => []
  | some s =>
    (splitOnChar '\n' s.data).filterMap (fun line =>
      let stripped := trimChars line
      if !stripped.isEmpty && !chHeadIs stripped '#' then some (String.mk stripped) else none)

/-- The text of a root-level `.gitignore` regular file, when present and
readable as text (`os.path.exists` + `open(...).read()` in the source). -/
def gitignore_content : FSList → Option String
  | .nil => none
  | .cons (.file n _ (.text s)) t =>
    if n == ".gitignore" then some s else gitignore_content t
  | .cons _ t => gitignore_content t

/-- The pattern list `process_directory` builds: the ignore-file patterns
plus the always-appended `.git/`. -/
def process_patterns (cs : FSList) : List String :=
  read_gitignore (gitignore_content cs) ++ [".git/"]

/-! ### `is_ignored` -/

/-- The per-pattern body of the loop in `is_ignored`: strip one leading and
one trailing `/`, then test the four glob disjuncts. -/
def pattern_matches (path : String) (isDir : Bool) (root : String) (pattern0 : String) : Bool :=
  let p1 := if chHeadIs pattern0.data '/' then String.mk (pattern0.data.drop 1) else pattern0
  let pattern := if chEndsWith p1.data '/' then String.mk p1.data.dropLast else p1
  fnmatch path (os_join root pattern)
    || fnmatch (os_relpath path root) pattern
    || (isDir && fnmatch path (os_join root (pattern ++ "/*")))
    || (splitOnChar '/' (os_relpath path root).data).any (fun part => fnmatchChars part pattern.data)

/-- `is_ignored(path, patterns, root, output_file, extensions)`.
`isDir` is the value of `os.path.isdir path` for this (existing) entry;
`os.path.isfile path` is its negation. -/
def is_ignored (path : String) (isDir : Bool) (patterns : List String)
    (root : String) (output_file : String) (extensions : List String) : Bool :=
  if os_abspath path == os_abspath output_file then true
  else
    let basename := os_basename path
    if isDir && chHeadIs basename.data '.' then true
    else if containsSub "cache".data (lowerChars basename.data) then true
    else if !isDir && hasDigitRun5 basename.data then true
    else if patterns.any (fun pattern => pattern_matches path isDir root pattern) then true
    else if !isDir && (!extensions.isEmpty
        && !(extensions.contains (String.mk (lowerChars ((os_splitext_ext path).data.drop 1))))) then true
    else false

/-! ### The counting walks (`count_files`, `count_excluded_files`)

`os.walk(directory)` visits `directory` first, yielding its sub-directories
and files; both counting functions prune ignored sub-directories from the
walk and test each file with `is_ignored`.  The walk is modelled by a pair of
functions: `_here` handles the files of the directory currently visited,
`_sub` recurses into its surviving sub-directories. -/

def count_files_here (patterns : List String) (root_dir output_file : String)
    (extensions : List String) (dirPath : String) : FSList → Nat
  | .nil => 0
  | .cons (.file n _ _) t =>
    (if is_ignored (os_join dirPath n) false patterns root_dir output_file extensions then 0 else 1)
      + count_files_here patterns root_dir output_file extensions dirPath t
  | .cons (.dir _ _) t => count_files_here patterns root_dir output_file extensions dirPath t

def count_files_sub (patterns : List String) (root_dir output_file : String)
    (extensions : List String) (dirPath : String) : FSList → Nat
  | .nil => 0
  | .cons (.file _ _ _) t => count_files_sub patterns root_dir output_file extensions dirPath t
  | .cons (.dir n cs) t =>
    (if is_ignored (os_join dirPath n) true patterns root_dir output_file extensions then 0
     else count_files_here patterns root_dir output_file extensions (os_join dirPath n) cs
        + count_files_sub patterns root_dir output_file extensions (os_join dirPath n) cs)
      + count_files_sub patterns root_dir output_file extensions dirPath t

/-- `count_files(directory, ...)` where `cs` is the children of
`directory`. -/
def count_files (patterns : List String) (root_dir output_file : String)
    (extensions : List String) (directory : String) (cs : FSList) : Nat :=
  count_files_here patterns root_dir output_file extensions directory cs
    + count_files_sub patterns root_dir output_file extensions directory cs

def count_excluded_here (patterns : List String) (root_dir output_file : String)
    (extensions : List String) (dirPath : String) : FSList → Nat
  | .nil => 0
  | .cons (.file n _ _) t =>
    (if is_ignored (os_join dirPath n) false patterns root_dir output_file extensions then 1 else 0)
      + count_excluded_here patterns root_dir output_file extensions dirPath t
  | .cons (.dir _ _) t => count_excluded_here patterns root_dir output_file extensions dirPath t

def count_excluded_sub (patterns : List String) (root_dir output_file : String)
    (extensions : List String) (dirPath : String) : FSList → Nat
  | .nil => 0
  | .cons (.file _ _ _) t => count_excluded_sub patterns root_dir output_file extensions dirPath t
  | .cons (.dir n cs) t =>
    (if is_ignored (os_join dirPath n) true patterns root_dir output_file extensions then 0
     else count_excluded_here patterns root_dir output_file extensions (os_join dirPath n) cs
        + count_excluded_sub patterns root_dir output_file extensions (os_join dirPath n) cs)
      + count_excluded_sub patterns root_dir output_file extensions dirPath t

/-- `count_excluded_files(directory, ...)`: ignored files in the pruned walk
(files below an excluded directory are never visited). -/
def count_excluded_files (patterns : List String) (root_dir output_file : String)
    (extensions : List String) (directory : String) (cs : FSList) : Nat :=
  count_excluded_here patterns root_dir output_file extensions directory cs
    + count_excluded_sub patterns root_dir output_file extensions directory cs

/-! ### The content-emission walk (the `os.walk` loop of `process_directory`)

Each emitted entry is `(file_path, relative_path, body)`: the absolute path,
the path relative to the processed directory, and the text written for that
file after its header (the decoded contents plus `"\n\n"`, or the binary /
error marker plus `"\n\n"`).  The `Size: .. | Last Modified: ..` header line
is wall-clock presentation and is not part of the model. -/

/-- What the `try/except` block writes for one file's body slot. -/
def file_body : FileContent → String
  | .text s => s ++ "\n\n"
  | .binary => "[Binary file - contents not displayed]\n\n"
  | .readError e => "[Error reading file: " ++ e ++ "]\n\n"

def emit_files_here (patterns : List String) (root_dir output_file : String)
    (extensions : List String) (dirPath : String) : FSList → List (String × String × String)
  | .nil => []
  | .cons (.file n _ c) t =>
    let file_path := os_join dirPath n
    if is_ignored file_path false patterns root_dir output_file extensions then
      emit_files_here patterns root_dir output_file extensions dirPath t
    else
      (file_path, os_relpath file_path root_dir, file_body c)
        :: emit_files_here patterns root_dir output_file extensions dirPath t
  | .cons (.dir _ _) t => emit_files_here patterns root_dir output_file extensions dirPath t

def emit_sub (patterns : List String) (root_dir output_file : String)
    (extensions : List String) (dirPath : String) : FSList → List (String × String × String)
  | .nil => []
  | .cons (.file _ _ _) t => emit_sub patterns root_dir output_file extensions dirPath t
  | .cons (.dir n cs) t =>
    (if is_ignored (os_join dirPath n) true patterns root_dir output_file extensions then []
     else emit_files_here patterns root_dir output_file extensions (os_join dirPath n) cs
        ++ emit_sub patterns root_dir output_file extensions (os_join dirPath n) cs)
      ++ emit_sub patterns root_dir output_file extensions dirPath t

/-- The sequence of files written to the content section by
`process_directory`, for a run over children `cs` of `root_dir`. -/
def process_directory_contents (patterns : List String) (root_dir output_file : String)
    (extensions : List String) (cs : FSList) : List (String × String × String) :=
  emit_files_here patterns root_dir output_file extensions root_dir cs
    ++ emit_sub patterns root_dir output_file extensions root_dir cs

/-! ### `format_file_size` and `get_file_icon`

`format_file_size` divides a float by `1024.0` until it is below `1024.0`
and prints it with `f"{x:.1f}"`.  Every intermediate value is `size/1024^k`
with `size < 2^53`, which IEEE doubles represent exactly (division by a
power of two only shifts the exponent), and CPython's `.1f` formatting
rounds the exact value half-to-even; so the computation is modelled exactly
by integer arithmetic on the fraction `n / 1024^k`. -/

/-- `f"{(n/d):.1f}"` for `n/d ≥ 0` exactly representable: one decimal,
ties to even. -/
def fmt1Frac (n d : Nat) : String :=
  let t10 := n * 10
  let fl := t10 / d
  let r := t10 % d
  let rounded :=
    if 2 * r < d then fl
    else if d < 2 * r then fl + 1
    else if fl % 2 == 0 then fl else fl + 1
  toString (rounded / 10) ++ "." ++ toString (rounded % 10)

def format_file_size_go : Nat → Nat → List String → String
  | n, d, [] => fmt1Frac n d ++ " TB"
  | n, d, u :: us => if n < 1024 * d then fmt1Frac n d ++ " " ++ u else format_file_size_go n (d * 1024) us

/-- `format_file_size(size_in_bytes)`. -/
def format_file_size (size : Nat) : String :=
  format_file_size_go size 1 ["B", "KB", "MB", "GB"]

def icon_table : List (String × String) :=
  [("py", "🐍"), ("js", "📜"), ("ts", "📜"), ("jsx", "⚛️"), ("tsx", "⚛️"),
   ("html", "🌐"), ("css", "🎨"), ("scss", "🎨"), ("sass", "🎨"), ("java", "☕"),
   ("c", "📟"), ("cpp", "📟"), ("h", "📟"), ("cs", "📟"), ("php", "🐘"),
   ("rb", "💎"), ("go", "🔹"), ("rs", "🦀"), ("swift", "🔶"), ("kt", "🔷"),
   ("json", "📊"), ("xml", "📊"), ("csv", "📊"), ("yaml", "📊"), ("yml", "📊"),
   ("toml", "📊"), ("sql", "🗃️"), ("md", "📝"), ("txt", "📄"), ("pdf", "📑"),
   ("doc", "📘"), ("docx", "📘"), ("xls", "📗"), ("xlsx", "📗"), ("ppt", "📙"),
   ("pptx", "📙"), ("jpg", "🖼️"), ("jpeg", "🖼️"), ("png", "🖼️"), ("gif", "🖼️"),
   ("svg", "🖼️"), ("ico", "🖼️"), ("webp", "🖼️"), ("zip", "📦"), ("rar", "📦"),
   ("tar", "📦"), ("gz", "📦"), ("7z", "📦"), ("ini", "⚙️"), ("conf", "⚙️"),
   ("config", "⚙️"), ("env", "⚙️"), ("exe", "⚡"), ("sh", "⚡"), ("bat", "⚡"),
   ("cmd", "⚡")]

/-- `get_file_icon(extension)`. -/
def get_file_icon (extension : String) : String :=
  (icon_table.lookup extension).getD "📄"

/-! ### The structural-listing walk (`get_directory_structure`) -/

/-- The line emitted for an included sub-directory. -/
def dir_line (indent n : String) (file_count : Nat) : String :=
  indent ++ "📁 " ++ n ++ "/ (" ++ toString file_count ++ " files)"

/-- The line emitted for an included file: the plain `📄` form, replaced by
the icon form when `os.path.splitext f` yields a non-empty extension. -/
def file_line (indent n : String) (size : Nat) : String :=
  let size_str := format_file_size size
  let ext := os_splitext_ext n
  if ext == "" then indent ++ "📄 " ++ n ++ " (" ++ size_str ++ ")"
  else indent ++ get_file_icon (String.mk (lowerChars (ext.data.drop 1)))
    ++ " " ++ n ++ " (" ++ size_str ++ ")"

/-- The statistics block appended when `directory == root_dir`. -/
def gds_stats (patterns : List String) (root_dir output_file : String)
    (extensions : List String) (directory : String) (cs : FSList) : List String :=
  let total_included := count_files patterns root_dir output_file extensions directory cs
  let total_excluded := count_excluded_files patterns root_dir output_file extensions directory cs
  ["", "📊 STATISTICS:",
   "   Total files included: " ++ toString total_included,
   "   Total files excluded: " ++ toString total_excluded,
   "   Total files: " ++ toString (total_included + total_excluded)]

/-- The file lines of one directory level, over the sorted items. -/
def gds_file_items (patterns : List String) (root_dir output_file : String)
    (extensions : List String) (directory : String) (indent : String) : FSList → List String
  | .nil => []
  | .cons (.file n size _) t =>
    (if is_ignored (os_join directory n) false patterns root_dir output_file extensions then []
     else [file_line indent n size])
      ++ gds_file_items patterns root_dir output_file extensions directory indent t
  | .cons (.dir _ _) t => gds_file_items patterns root_dir output_file extensions directory indent t

/-- `sortByName` only rearranges a directory level, so it preserves the
node count measured by `sizeOf`; needed to justify termination of
`get_directory_structure`, which recurses through the sorted level. -/
theorem sizeOf_insertByName (t : FSTree) :
    ∀ (l : FSList), sizeOf (insertByName t l) = 1 + sizeOf t + sizeOf l
  | .nil => by simp [insertByName] <;> omega
  | .cons h rest => by
    simp only [insertByName]
    split
    · simp <;> omega
    · simp [sizeOf_insertByName t rest] <;> omega

theorem sizeOf_sortByName : ∀ (l : FSList), sizeOf (sortByName l) = sizeOf l
  | .nil => by simp [sortByName]
  | .cons h rest => by
    simp [sortByName, sizeOf_insertByName, sizeOf_sortByName rest] <;> omega

mutual
/-- `get_directory_structure(directory, ...)` restricted to its observable
output: the listing lines (directory lines with recursive included-file
counts, file lines with sizes and icons, and — exactly when
`directory == root_dir` — the statistics block).  The permission / error
`except` branches are unreachable in the tree model. -/
def get_directory_structure (patterns : List String) (root_dir output_file : String)
    (extensions : List String) (directory : String) (cs : FSList) (indent : String) : List String :=
  let items := sortByName cs
  gds_dir_items patterns root_dir output_file extensions directory indent items
    ++ gds_file_items patterns root_dir output_file extensions directory indent items
    ++ (if directory == root_dir then
          gds_stats patterns root_dir output_file extensions directory cs
        else [])
termination_by (sizeOf cs, 1)
decreasing_by
  all_goals rw [sizeOf_sortByName]
  all_goals exact Prod.Lex.right _ (by omega)

/-- The directory lines of one directory level, over the sorted items:
excluded sub-directories are skipped entirely (no line, no recursion). -/
def gds_dir_items (patterns : List String) (root_dir output_file : String)
    (extensions : List String) (directory : String) (indent : String) : FSList → List String
  | .nil => []
  | .cons (.file _ _ _) t => gds_dir_items patterns root_dir output_file extensions directory indent t
  | .cons (.dir n cs) t =>
    (if is_ignored (os_join directory n) true patterns root_dir output_file extensions then []
     else dir_line indent n (count_files patterns root_dir output_file extensions (os_join directory n) cs)
        :: get_directory_structure patterns root_dir output_file extensions (os_join directory n) cs (indent ++ "│  "))
      ++ gds_dir_items patterns root_dir output_file extensions directory indent t
termination_by cs' => (sizeOf cs', 0)
decreasing_by
  · exact Prod.Lex.left _ _ (by simp <;> omega)
  · exact Prod.Lex.left _ _ (by simp <;> omega)
  · exact Prod.Lex.left _ _ (by simp <;> omega)
end

/-! ### The CLI extension list (`main`) -/

/-- `[ext.lower() for ext in args.extensions.split(',')] if args.extensions
else []` — the allow-list built in `main` from the `-e` argument. -/
def main_extensions (s : String) : List String :=
  if s == "" then []
  else (splitOnChar ',' s.data).map (fun e => String.mk (lowerChars e))

/-! ### Spec-side definitions

The following definitions are written from the specification's words (§3,
§4.2), to be compared with the source embedding above. -/

/-- Spec §4.2: the verdict of `Decide`. -/
inductive Verdict where
  | Include
  | Exclude
deriving DecidableEq

/-- Spec §3: the fields of an `EntryDescriptor` the cascade consumes
(basename and extension are derived from the absolute path). -/
structure EntryDescriptor where
  absolutePath : String
  isDirectory : Bool
deriving DecidableEq

/-- Spec §3: `FilterConfig`. -/
structure FilterConfig where
  rootDirectory : String
  outputArtifactPath : String
  allowedExtensions : List String
deriving DecidableEq

/-- Spec §3: a pattern is normalized by stripping a single leading `/` and a
single trailing `/`. -/
def specNormalize (p : String) : String :=
  let q := if chHeadIs p.data '/' then String.mk (p.data.drop 1) else p
  if chEndsWith q.data '/' then String.mk q.data.dropLast else q

/-- Spec §4.2 rule 1: the entry's absolute path equals
`config.outputArtifactPath`. -/
def specRuleArtifact (e : EntryDescriptor) (config : FilterConfig) : Bool :=
  os_abspath e.absolutePath == os_abspath config.outputArtifactPath

/-- Spec §4.2 rule 2: a directory whose basename starts with `.`. -/
def specRuleHiddenDir (e : EntryDescriptor) : Bool :=
  e.isDirectory && chHeadIs (os_basename e.absolutePath).data '.'

/-- Spec §4.2 rule 3: the basename contains the substring `cache`,
case-insensitively, for files and directories alike. -/
def specRuleCacheName (e : EntryDescriptor) : Bool :=
  containsSub "cache".data (lowerChars (os_basename e.absolutePath).data)

/-- Spec §4.2 rule 4: a file whose basename contains a run of 5 or more
consecutive decimal digits. -/
def specRuleDigitRun (e : EntryDescriptor) : Bool :=
  !e.isDirectory && hasDigitRun5 (os_basename e.absolutePath).data

/-- Spec §4.2 rule 5: some normalized pattern matches under the four glob
disjuncts. -/
def specRulePatternMatch (e : EntryDescriptor) (config : FilterConfig)
    (patterns : List String) : Bool :=
  patterns.any (fun p0 =>
    let p := specNormalize p0
    fnmatch e.absolutePath (os_join config.rootDirectory p)
      || fnmatch (os_relpath e.absolutePath config.rootDirectory) p
      || (e.isDirectory && fnmatch e.absolutePath (os_join config.rootDirectory (p ++ "/*")))
      || (splitOnChar '/' (os_relpath e.absolutePath config.rootDirectory).data).any
          (fun part => fnmatchChars part p.data))

/-- Spec §4.2 rule 6: a file whose lowercased extension (without dot) is
absent from a non-empty `allowedExtensions`. -/
def specRuleExtension (e : EntryDescriptor) (config : FilterConfig) : Bool :=
  !e.isDirectory && (!config.allowedExtensions.isEmpty
    && !(config.allowedExtensions.contains
          (String.mk (lowerChars ((os_splitext_ext e.absolutePath).data.drop 1)))))

/-- Spec §4.2 `Decide`: the fixed rule cascade, first true rule wins. -/
def specDecide (e : EntryDescriptor) (config : FilterConfig)
    (patterns : List String) : Verdict :=
  if specRuleArtifact e config then .Exclude
  else if specRuleHiddenDir e then .Exclude
  else if specRuleCacheName e then .Exclude
  else if specRuleDigitRun e then .Exclude
  else if specRulePatternMatch e config patterns then .Exclude
  else if specRuleExtension e config then .Exclude
  else .Include

/-! ### Walk extraction (spec-side views of the two walks)

`walk_included` lists the absolute paths of the files the pruned walk
accepts — the same walk shape as `count_files` / the content loop.
`walk_reachable_count` counts every file the pruned walk visits, included
or excluded.  `fulltree_excluded_count` descends into every directory
(no pruning) and counts the files whose own verdict is Exclude. -/

def walk_included_here (patterns : List String) (root_dir output_file : String)
    (extensions : List String) (dirPath : String) : FSList → List String
  | .nil => []
  | .cons (.file n _ _) t =>
    (if is_ignored (os_join dirPath n) false patterns root_dir output_file extensions then []
     else [os_join dirPath n])
      ++ walk_included_here patterns root_dir output_file extensions dirPath t
  | .cons (.dir _ _) t => walk_included_here patterns root_dir output_file extensions dirPath t

def walk_included_sub (patterns : List String) (root_dir output_file : String)
    (extensions : List String) (dirPath : String) : FSList → List String
  | .nil => []
  | .cons (.file _ _ _) t => walk_included_sub patterns root_dir output_file extensions dirPath t
  | .cons (.dir n cs) t =>
    (if is_ignored (os_join dirPath n) true patterns root_dir output_file extensions then []
     else walk_included_here patterns root_dir output_file extensions (os_join dirPath n) cs
        ++ walk_included_sub patterns root_dir output_file extensions (os_join dirPath n) cs)
      ++ walk_included_sub patterns root_dir output_file extensions dirPath t

/-- The absolute paths of the files the pruned walk from `directory`
includes. -/
def walk_included (patterns : List String) (root_dir output_file : String)
    (extensions : List String) (directory : String) (cs : FSList) : List String :=
  walk_included_here patterns root_dir output_file extensions directory cs
    ++ walk_included_sub patterns root_dir output_file extensions directory cs

def count_tree_files_level : FSList → Nat
  | .nil => 0
  | .cons (.file _ _ _) t => 1 + count_tree_files_level t
  | .cons (.dir _ _) t => count_tree_files_level t

def walk_reachable_sub (patterns : List String) (root_dir output_file : String)
    (extensions : List String) (dirPath : String) : FSList → Nat
  | .nil => 0
  | .cons (.file _ _ _) t => walk_reachable_sub patterns root_dir output_file extensions dirPath t
  | .cons (.dir n cs) t =>
    (if is_ignored (os_join dirPath n) true patterns root_dir output_file extensions then 0
     else count_tree_files_level cs
        + walk_reachable_sub patterns root_dir output_file extensions (os_join dirPath n) cs)
      + walk_reachable_sub patterns root_dir output_file extensions dirPath t

/-- The number of files visited by the pruned walk from `directory`
(files beneath an excluded directory are not visited). -/
def walk_reachable_count (patterns : List String) (root_dir output_file : String)
    (extensions : List String) (directory : String) (cs : FSList) : Nat :=
  count_tree_files_level cs
    + walk_reachable_sub patterns root_dir output_file extensions directory cs

/-- Spec-side for §4.3 statistics as the claim reads them: the number of
files in the whole tree (descending into every directory, excluded or not)
whose own verdict under the policy is Exclude. -/
def fulltree_excluded_count (patterns : List String) (root_dir output_file : String)
    (extensions : List String) (dirPath : String) : FSList → Nat
  | .nil => 0
  | .cons (.file n _ _) t =>
    (if is_ignored (os_join dirPath n) false patterns root_dir output_file extensions then 1 else 0)
      + fulltree_excluded_count patterns root_dir output_file extensions dirPath t
  | .cons (.dir n cs) t =>
    fulltree_excluded_count patterns root_dir output_file extensions (os_join dirPath n) cs
      + fulltree_excluded_count patterns root_dir output_file extensions dirPath t

/-- Replace every file's read outcome (file set and names unchanged);
used to state that the walk's shape does not depend on read outcomes. -/
def map_contents (g : FileContent → FileContent) : FSList → FSList
  | .nil => .nil
  | .cons (.file n sz c) t => .cons (.file n sz (g c)) (map_contents g t)
  | .cons (.dir n cs) t => .cons (.dir n (map_contents g cs)) (map_contents g t)

/-! ### Listed-path extraction for the structural listing

`listed_paths` mirrors `get_directory_structure` exactly (same sorting, same
pruning) but collects the absolute paths of the entries it lists instead of
their display lines. -/

def listed_file_paths (patterns : List String) (root_dir output_file : String)
    (extensions : List String) (directory : String) : FSList → List String
  | .nil => []
  | .cons (.file n _ _) t =>
    (if is_ignored (os_join directory n) false patterns root_dir output_file extensions then []
     else [os_join directory n])
      ++ listed_file_paths patterns root_dir output_file extensions directory t
  | .cons (.dir _ _) t => listed_file_paths patterns root_dir output_file extensions directory t

mutual
def listed_paths (patterns : List String) (root_dir output_file : String)
    (extensions : List String) (directory : String) (cs : FSList) : List String :=
  let items := sortByName cs
  listed_dir_paths patterns root_dir output_file extensions directory items
    ++ listed_file_paths patterns root_dir output_file extensions directory items
termination_by (sizeOf cs, 1)
decreasing_by
  all_goals rw [sizeOf_sortByName]
  all_goals exact Prod.Lex.right _ (by omega)

def listed_dir_paths (patterns : List String) (root_dir output_file : String)
    (extensions : List String) (directory : String) : FSList → List String
  | .nil => []
  | .cons (.file _ _ _) t => listed_dir_paths patterns root_dir output_file extensions directory t
  | .cons (.dir n cs) t =>
    (if is_ignored (os_join directory n) true patterns root_dir output_file extensions then []
     else os_join directory n
        :: listed_paths patterns root_dir output_file extensions (os_join directory n) cs)
      ++ listed_dir_paths patterns root_dir output_file extensions directory t
termination_by cs' => (sizeOf cs', 0)
decreasing_by
  · exact Prod.Lex.left _ _ (by simp <;> omega)
  · exact Prod.Lex.left _ _ (by simp <;> omega)
  · exact Prod.Lex.left _ _ (by simp <;> omega)
end

/-! ### Concrete scenario trees -/

/-- The round-trip scenario tree of spec §8: `a.py` containing `print(1)`,
`.hidden/secret.txt`, `node_modules_cache/x.js`, `build/out.txt`, and a
`.gitignore` containing the line `build/`. -/
def c5_tree : FSList :=
  .cons (.file ".gitignore" 6 (.text "build/"))
  (.cons (.dir ".hidden" (.cons (.file "secret.txt" 6 (.text "secret")) .nil))
  (.cons (.file "a.py" 8 (.text "print(1)"))
  (.cons (.dir "build" (.cons (.file "out.txt" 3 (.text "out")) .nil))
  (.cons (.dir "node_modules_cache" (.cons (.file "x.js" 1 (.text "x")) .nil)) .nil))))

/-- A tree with one hidden directory containing one file whose own verdict
is Exclude (`cache` in its name): the pruned excluded-count never sees it. -/
def c6_tree : FSList :=
  .cons (.dir ".h" (.cons (.file "mycache.txt" 1 (.text "z")) .nil)) .nil

/-! ## Helper lemmas -/

theorem any_eq_of_perm {α : Type} (f : α → Bool) {l1 l2 : List α} (h : l1.Perm l2) :
    l1.any f = l2.any f := by
  cases h2 : l2.any f
  · simp only [List.any_eq_false] at h2 ⊢
    intro x hx
    exact h2 x (h.mem_iff.mp hx)
  · simp only [List.any_eq_true] at h2 ⊢
    obtain ⟨x, hx, hfx⟩ := h2
    exact ⟨x, h.mem_iff.mpr hx, hfx⟩

theorem takeWhile_append_all (p : Char → Bool) (l1 l2 : List Char)
    (h : ∀ c ∈ l1, p c = true) : (l1 ++ l2).takeWhile p = l1 ++ l2.takeWhile p := by
  induction l1 with
  | nil => simp
  | cons a t ih =>
    simp [List.takeWhile_cons, h a (by simp), ih (fun c hc => h c (by simp [hc]))]

/-- The basename collector of `os_basename` over `nd.reverse ++ rest`, when
`nd` is separator-free and `rest` is empty or starts (= the original path
ends) with a separator, recovers exactly `nd`. -/
theorem basename_chars (nd rest : List Char) (hslash : '/' ∉ nd)
    (hrest : rest.head? = some '/' ∨ rest = []) :
    ((nd.reverse ++ rest).takeWhile (fun c => !(c == '/'))).reverse = nd := by
  have hAll : ∀ c ∈ nd.reverse, (fun c => !(c == '/')) c = true := by
    intro c hc
    simp only [List.mem_reverse] at hc
    simp only [Bool.not_eq_true', beq_eq_false_iff_ne, ne_eq]
    rintro rfl
    exact hslash hc
  rw [takeWhile_append_all _ _ _ hAll]
  rcases hrest with h | h
  · cases rest with
    | nil => simp at h
    | cons r t =>
      simp only [List.head?_cons, Option.some.injEq] at h
      subst h
      simp [List.takeWhile_cons]
  · subst h
    simp

/-- When the entry name `n` contains no separator and is non-empty — true of
every name `os.listdir` returns — the basename of `os.path.join d n` is `n`
itself. -/
theorem os_basename_join (d n : String) (hslash : '/' ∉ n.data) (hne : n ≠ "") :
    os_basename (os_join d n) = n := by
  have hdata : n.data ≠ [] := by
    intro h
    exact hne (by cases n with | mk l => simp at h; simp [h])
  have hhead : chHeadIs n.data '/' = false := by
    cases hn : n.data with
    | nil => rfl
    | cons c t =>
      simp only [chHeadIs, beq_eq_false_iff_ne, ne_eq]
      rintro rfl
      exact hslash (by rw [hn]; exact List.mem_cons_self _ _)
  have hmkn : String.mk n.data = n := rfl
  unfold os_basename os_join
  rw [hhead]
  simp only [Bool.false_eq_true, if_false]
  by_cases hd0 : (d == "" || chEndsWith d.data '/') = true
  · rw [if_pos hd0]
    have hx : (d ++ n).data = d.data ++ n.data := rfl
    rw [hx, List.reverse_append]
    rcases Bool.or_eq_true _ _ |>.mp hd0 with h1 | h2
    · have hdd : d.data = [] := by
        have : d = "" := by simpa using h1
        simp [this]
      rw [hdd]
      simp only [List.reverse_nil, List.append_nil]
      have := basename_chars n.data [] hslash (Or.inr rfl)
      rw [List.append_nil] at this
      rw [this]
    · have hrev : d.data.reverse.head? = some '/' := by
        rw [List.head?_reverse]
        unfold chEndsWith at h2
        cases hL : d.data.getLast? with
        | none => rw [hL] at h2; simp at h2
        | some c =>
          rw [hL] at h2
          simp only [beq_iff_eq] at h2
          rw [h2]
      have := basename_chars n.data d.data.reverse hslash (Or.inl hrev)
      rw [this]
  · rw [if_neg hd0]
    have hx : (d ++ "/" ++ n).data = (d.data ++ ['/']) ++ n.data := rfl
    rw [hx, List.reverse_append]
    have hrev : (d.data ++ ['/']).reverse.head? = some '/' := by simp
    have := basename_chars n.data (d.data ++ ['/']).reverse hslash (Or.inl hrev)
    rw [this]

/-- Rule 1 in isolation: the output artifact path is always excluded,
whatever kind of entry carries it. -/
theorem is_ignored_output_self (isDir : Bool) (patterns : List String)
    (root output_file : String) (extensions : List String) :
    is_ignored output_file isDir patterns root output_file extensions = true := by
  simp [is_ignored, os_abspath]

/-- An entry the policy accepts cannot be the output artifact. -/
theorem ne_output_of_not_ignored (path : String) (isDir : Bool) (patterns : List String)
    (root output_file : String) (extensions : List String)
    (h : is_ignored path isDir patterns root output_file extensions = false) :
    path ≠ output_file := by
  rintro rfl
  rw [is_ignored_output_self] at h
  exact absurd h (by simp)

/-! ## Walk lemmas -/

theorem emit_files_here_paths (patterns : List String) (root_dir output_file : String)
    (extensions : List String) (dirPath : String) :
    ∀ (l : FSList),
      (emit_files_here patterns root_dir output_file extensions dirPath l).map (fun e => e.1)
        = walk_included_here patterns root_dir output_file extensions dirPath l
  | .nil => by simp [emit_files_here, walk_included_here]
  | .cons (.file n sz c) t => by
    by_cases h : is_ignored (os_join dirPath n) false patterns root_dir output_file extensions = true <;>
      simp [emit_files_here, walk_included_here, h,
        emit_files_here_paths patterns root_dir output_file extensions dirPath t]
  | .cons (.dir n cs) t => by
    simp only [emit_files_here, walk_included_here]
    exact emit_files_here_paths patterns root_dir output_file extensions dirPath t

theorem emit_sub_paths (patterns : List String) (root_dir output_file : String)
    (extensions : List String) : ∀ (dirPath : String) (l : FSList),
      (emit_sub patterns root_dir output_file extensions dirPath l).map (fun e => e.1)
        = walk_included_sub patterns root_dir output_file extensions dirPath l
  | dirPath, .nil => by simp [emit_sub, walk_included_sub]
  | dirPath, .cons (.file n sz c) t => by
    simp only [emit_sub, walk_included_sub]
    exact emit_sub_paths patterns root_dir output_file extensions dirPath t
  | dirPath, .cons (.dir n cs) t => by
    by_cases h : is_ignored (os_join dirPath n) true patterns root_dir output_file extensions = true <;>
      simp [emit_sub, walk_included_sub, h,
        emit_sub_paths patterns root_dir output_file extensions (os_join dirPath n) cs,
        emit_sub_paths patterns root_dir output_file extensions dirPath t,
        emit_files_here_paths patterns root_dir output_file extensions (os_join dirPath n) cs]

theorem count_files_here_length (patterns : List String) (root_dir output_file : String)
    (extensions : List String) (dirPath : String) :
    ∀ (l : FSList), count_files_here patterns root_dir output_file extensions dirPath l
      = (walk_included_here patterns root_dir output_file extensions dirPath l).length
  | .nil => by simp [count_files_here, walk_included_here]
  | .cons (.file n sz c) t => by
    by_cases h : is_ignored (os_join dirPath n) false patterns root_dir output_file extensions = true <;>
      simp [count_files_here, walk_included_here, h,
        count_files_here_length patterns root_dir output_file extensions dirPath t] <;>
      omega
  | .cons (.dir n cs) t => by
    simp only [count_files_here, walk_included_here]
    exact count_files_here_length patterns root_dir output_file extensions dirPath t

theorem count_files_sub_length (patterns : List String) (root_dir output_file : String)
    (extensions : List String) : ∀ (dirPath : String) (l : FSList),
      count_files_sub patterns root_dir output_file extensions dirPath l
        = (walk_included_sub patterns root_dir output_file extensions dirPath l).length
  | dirPath, .nil => by simp [count_files_sub, walk_included_sub]
  | dirPath, .cons (.file n sz c) t => by
    simp only [count_files_sub, walk_included_sub]
    exact count_files_sub_length patterns root_dir output_file extensions dirPath t
  | dirPath, .cons (.dir n cs) t => by
    by_cases h : is_ignored (os_join dirPath n) true patterns root_dir output_file extensions = true <;>
      simp [count_files_sub, walk_included_sub, h,
        count_files_sub_length patterns root_dir output_file extensions (os_join dirPath n) cs,
        count_files_sub_length patterns root_dir output_file extensions dirPath t,
        count_files_here_length patterns root_dir output_file extensions (os_join dirPath n) cs] <;>
      omega

theorem mem_walk_included_here (patterns : List String) (root_dir output_file : String)
    (extensions : List String) (dirPath : String) :
    ∀ (l : FSList) (p : String),
      p ∈ walk_included_here patterns root_dir output_file extensions dirPath l →
      is_ignored p false patterns root_dir output_file extensions = false
  | .nil, p => by simp [walk_included_here]
  | .cons (.file n sz c) t, p => by
    by_cases h : is_ignored (os_join dirPath n) false patterns root_dir output_file extensions = true
    · simp only [walk_included_here, h, if_true, List.nil_append]
      exact mem_walk_included_here patterns root_dir output_file extensions dirPath t p
    · simp [walk_included_here, h]
      rintro (rfl | hp)
      · simpa using h
      · exact mem_walk_included_here patterns root_dir output_file extensions dirPath t p hp
  | .cons (.dir n cs) t, p => by
    simp only [walk_included_here]
    exact mem_walk_included_here patterns root_dir output_file extensions dirPath t p

theorem mem_walk_included_sub (patterns : List String) (root_dir output_file : String)
    (extensions : List String) : ∀ (dirPath : String) (l : FSList) (p : String),
      p ∈ walk_included_sub patterns root_dir output_file extensions dirPath l →
      is_ignored p false patterns root_dir output_file extensions = false
  | dirPath, .nil, p => by simp [walk_included_sub]
  | dirPath, .cons (.file n sz c) t, p => by
    simp only [walk_included_sub]
    exact mem_walk_included_sub patterns root_dir output_file extensions dirPath t p
  | dirPath, .cons (.dir n cs) t, p => by
    by_cases h : is_ignored (os_join dirPath n) true patterns root_dir output_file extensions = true
    · simp only [walk_included_sub, h, if_true, List.nil_append]
      exact mem_walk_included_sub patterns root_dir output_file extensions dirPath t p
    · simp [walk_included_sub, h]
      rintro (hp | hp | hp)
      · exact mem_walk_included_here patterns root_dir output_file extensions (os_join dirPath n) cs p hp
      · exact mem_walk_included_sub patterns root_dir output_file extensions (os_join dirPath n) cs p hp
      · exact mem_walk_included_sub patterns root_dir output_file extensions dirPath t p hp

theorem counts_here_split (patterns : List String) (root_dir output_file : String)
    (extensions : List String) (dirPath : String) :
    ∀ (l : FSList), count_files_here patterns root_dir output_file extensions dirPath l
        + count_excluded_here patterns root_dir output_file extensions dirPath l
      = count_tree_files_level l
  | .nil => by simp [count_files_here, count_excluded_here, count_tree_files_level]
  | .cons (.file n sz c) t => by
    have ih := counts_here_split patterns root_dir output_file extensions dirPath t
    by_cases h : is_ignored (os_join dirPath n) false patterns root_dir output_file extensions = true <;>
      simp [count_files_here, count_excluded_here, count_tree_files_level, h] <;> omega
  | .cons (.dir n cs) t => by
    simp only [count_files_here, count_excluded_here, count_tree_files_level]
    exact counts_here_split patterns root_dir output_file extensions dirPath t

theorem counts_sub_split (patterns : List String) (root_dir output_file : String)
    (extensions : List String) : ∀ (dirPath : String) (l : FSList),
      count_files_sub patterns root_dir output_file extensions dirPath l
          + count_excluded_sub patterns root_dir output_file extensions dirPath l
        = walk_reachable_sub patterns root_dir output_file extensions dirPath l
  | dirPath, .nil => by simp [count_files_sub, count_excluded_sub, walk_reachable_sub]
  | dirPath, .cons (.file n sz c) t => by
    simp only [count_files_sub, count_excluded_sub, walk_reachable_sub]
    exact counts_sub_split patterns root_dir output_file extensions dirPath t
  | dirPath, .cons (.dir n cs) t => by
    have ih1 := counts_sub_split patterns root_dir output_file extensions (os_join dirPath n) cs
    have ih2 := counts_sub_split patterns root_dir output_file extensions dirPath t
    have ih3 := counts_here_split patterns root_dir output_file extensions (os_join dirPath n) cs
    by_cases h : is_ignored (os_join dirPath n) true patterns root_dir output_file extensions = true <;>
      simp [count_files_sub, count_excluded_sub, walk_reachable_sub, h] <;> omega

theorem emit_files_here_map_contents (g : FileContent → FileContent)
    (patterns : List String) (root_dir output_file : String)
    (extensions : List String) (dirPath : String) :
    ∀ (l : FSList),
      (emit_files_here patterns root_dir output_file extensions dirPath (map_contents g l)).map
          (fun e => (e.1, e.2.1))
        = (emit_files_here patterns root_dir output_file extensions dirPath l).map
          (fun e => (e.1, e.2.1))
  | .nil => by simp [map_contents]
  | .cons (.file n sz c) t => by
    by_cases h : is_ignored (os_join dirPath n) false patterns root_dir output_file extensions = true <;>
      simp [map_contents, emit_files_here, h,
        emit_files_here_map_contents g patterns root_dir output_file extensions dirPath t]
  | .cons (.dir n cs) t => by
    simp only [map_contents, emit_files_here]
    exact emit_files_here_map_contents g patterns root_dir output_file extensions dirPath t

theorem emit_sub_map_contents (g : FileContent → FileContent)
    (patterns : List String) (root_dir output_file : String)
    (extensions : List String) : ∀ (dirPath : String) (l : FSList),
      (emit_sub patterns root_dir output_file extensions dirPath (map_contents g l)).map
          (fun e => (e.1, e.2.1))
        = (emit_sub patterns root_dir output_file extensions dirPath l).map
          (fun e => (e.1, e.2.1))
  | dirPath, .nil => by simp [map_contents]
  | dirPath, .cons (.file n sz c) t => by
    simp only [map_contents, emit_sub]
    exact emit_sub_map_contents g patterns root_dir output_file extensions dirPath t
  | dirPath, .cons (.dir n cs) t => by
    by_cases h : is_ignored (os_join dirPath n) true patterns root_dir output_file extensions = true <;>
      simp [map_contents, emit_sub, h,
        emit_sub_map_contents g patterns root_dir output_file extensions (os_join dirPath n) cs,
        emit_sub_map_contents g patterns root_dir output_file extensions dirPath t,
        emit_files_here_map_contents g patterns root_dir output_file extensions (os_join dirPath n) cs]

theorem listed_file_paths_ne_output (patterns : List String) (root_dir output_file : String)
    (extensions : List String) (directory : String) :
    ∀ (l : FSList) (p : String),
      p ∈ listed_file_paths patterns root_dir output_file extensions directory l → p ≠ output_file
  | .nil, p => by simp [listed_file_paths]
  | .cons (.file n sz c) t, p => by
    by_cases h : is_ignored (os_join directory n) false patterns root_dir output_file extensions = true
    · simp only [listed_file_paths, h, if_true, List.nil_append]
      exact listed_file_paths_ne_output patterns root_dir output_file extensions directory t p
    · simp [listed_file_paths, h]
      rintro (rfl | hp)
      · exact ne_output_of_not_ignored _ false _ _ _ _ (by simpa using h)
      · exact listed_file_paths_ne_output patterns root_dir output_file extensions directory t p hp
  | .cons (.dir n cs) t, p => by
    simp only [listed_file_paths]
    exact listed_file_paths_ne_output patterns root_dir output_file extensions directory t p

mutual
theorem listed_paths_ne_output (patterns : List String) (root_dir output_file : String)
    (extensions : List String) (directory : String) (cs : FSList) :
    ∀ (p : String),
      p ∈ listed_paths patterns root_dir output_file extensions directory cs → p ≠ output_file := by
  intro p hp
  rw [listed_paths] at hp
  rw [List.mem_append] at hp
  rcases hp with h | h
  · exact listed_dir_paths_ne_output patterns root_dir output_file extensions directory
      (sortByName cs) p h
  · exact listed_file_paths_ne_output patterns root_dir output_file extensions directory
      (sortByName cs) p h
termination_by (sizeOf cs, 1)
decreasing_by
  rw [sizeOf_sortByName]
  exact Prod.Lex.right _ (by omega)

theorem listed_dir_paths_ne_output (patterns : List String) (root_dir output_file : String)
    (extensions : List String) (directory : String) (items : FSList) :
    ∀ (p : String),
      p ∈ listed_dir_paths patterns root_dir output_file extensions directory items
        → p ≠ output_file := by
  match items with
  | .nil => intro p hp; simp [listed_dir_paths] at hp
  | .cons (.file n sz c) t =>
    intro p hp
    rw [listed_dir_paths] at hp
    exact listed_dir_paths_ne_output patterns root_dir output_file extensions directory t p hp
  | .cons (.dir n cs) t =>
    intro p hp
    rw [listed_dir_paths, List.mem_append] at hp
    rcases hp with h | h
    · by_cases hig : is_ignored (os_join directory n) true patterns root_dir output_file extensions = true
      · rw [if_pos hig] at h
        simp at h
      · rw [if_neg hig] at h
        rcases List.mem_cons.mp h with rfl | h2
        · exact ne_output_of_not_ignored _ true _ _ _ _ (by simpa using hig)
        · exact listed_paths_ne_output patterns root_dir output_file extensions
            (os_join directory n) cs p h2
    · exact listed_dir_paths_ne_output patterns root_dir output_file extensions directory t p h
termination_by (sizeOf items, 0)
decreasing_by
  · exact Prod.Lex.left _ _ (by simp <;> omega)
  · exact Prod.Lex.left _ _ (by simp <;> omega)
  · exact Prod.Lex.left _ _ (by simp <;> omega)
end

/-- Rule 2 in isolation: a directory entry whose basename starts with a dot
is always excluded (rule 1 may fire first; either way the verdict is
Exclude). -/
theorem is_ignored_dotdir (path : String) (patterns : List String)
    (root output_file : String) (extensions : List String)
    (h : chHeadIs (os_basename path).data '.' = true) :
    is_ignored path true patterns root output_file extensions = true := by
  simp only [is_ignored]
  split_ifs with h1 h2 <;> try rfl
  exact absurd (by simp [h]) h2

/-- The listing loop contributes nothing for a sub-directory the policy
excludes: no line and no recursion. -/
theorem gds_dir_items_skip (patterns : List String) (root_dir output_file : String)
    (extensions : List String) (dirPath indent n : String) (cs t : FSList)
    (hig : is_ignored (os_join dirPath n) true patterns root_dir output_file extensions = true) :
    gds_dir_items patterns root_dir output_file extensions dirPath indent (.cons (.dir n cs) t)
      = gds_dir_items patterns root_dir output_file extensions dirPath indent t := by
  rw [gds_dir_items]
  simp [hig]

/-! ## Claim theorems -/

/-- C1: For every filesystem entry, the exclusion decision of `is_ignored`
is exactly the fixed six-rule cascade of spec §4.2 evaluated in order with
first-true-rule-wins short-circuit: (1) absolute path equals the output
artifact path, (2) hidden directory, (3) `cache` substring in the basename
(files and directories alike), (4) file with a run of 5+ decimal digits,
(5) some normalized pattern matches under the four glob disjuncts,
(6) file whose lowercased extension is absent from a non-empty allow-list;
otherwise Include. -/
theorem is_ignored_eq_specDecide (path : String) (isDir : Bool) (patterns : List String)
    (root output_file : String) (extensions : List String) :
    is_ignored path isDir patterns root output_file extensions
      = (specDecide ⟨path, isDir⟩ ⟨root, output_file, extensions⟩ patterns == Verdict.Exclude) := by
  simp only [is_ignored, specDecide, specRuleArtifact, specRuleHiddenDir, specRuleCacheName,
    specRuleDigitRun, specRulePatternMatch, specRuleExtension, specNormalize, pattern_matches]
  split_ifs <;> rfl

/-- C2: The structural pass and the content pass agree: the absolute paths
emitted by the content walk are exactly the files the pruned walk includes,
`count_files` counts exactly that set, and the verdict function both walks
consult is a pure function (querying it twice yields the same verdict). -/
theorem walks_agree_and_deterministic (patterns : List String) (root_dir output_file : String)
    (extensions : List String) (cs : FSList) :
    (process_directory_contents patterns root_dir output_file extensions cs).map (fun e => e.1)
      = walk_included patterns root_dir output_file extensions root_dir cs
    ∧ count_files patterns root_dir output_file extensions root_dir cs
      = (walk_included patterns root_dir output_file extensions root_dir cs).length
    ∧ (∀ (path : String) (isDir : Bool),
        is_ignored path isDir patterns root_dir output_file extensions
          = is_ignored path isDir patterns root_dir output_file extensions) := by
  refine ⟨?_, ?_, fun _ _ => rfl⟩
  · simp [process_directory_contents, walk_included,
      emit_files_here_paths, emit_sub_paths]
  · simp [count_files, walk_included,
      count_files_here_length, count_files_sub_length]

/-- C3: For every run configuration and any output artifact path (inside or
outside the scanned tree), the artifact is excluded by the policy for both
entry kinds, its path is never among the files the content walk emits, and
it is never among the entries the structural listing lists. -/
theorem output_artifact_self_exclusion (patterns : List String) (root_dir output_file : String)
    (extensions : List String) (directory : String) (cs : FSList) :
    (∀ isDir : Bool, is_ignored output_file isDir patterns root_dir output_file extensions = true)
    ∧ output_file ∉ (process_directory_contents patterns root_dir output_file extensions cs).map
        (fun e => e.1)
    ∧ output_file ∉ listed_paths patterns root_dir output_file extensions directory cs := by
  refine ⟨fun isDir => is_ignored_output_self isDir patterns root_dir output_file extensions, ?_, ?_⟩
  · intro hmem
    rw [show (process_directory_contents patterns root_dir output_file extensions cs).map
          (fun e => e.1) = walk_included patterns root_dir output_file extensions root_dir cs by
        simp [process_directory_contents, walk_included, emit_files_here_paths, emit_sub_paths]]
      at hmem
    rw [walk_included, List.mem_append] at hmem
    rcases hmem with h | h
    · exact ne_output_of_not_ignored _ false _ _ _ _
        (mem_walk_included_here patterns root_dir output_file extensions root_dir cs _ h) rfl
    · exact ne_output_of_not_ignored _ false _ _ _ _
        (mem_walk_included_sub patterns root_dir output_file extensions root_dir cs _ h) rfl
  · intro hmem
    exact listed_paths_ne_output patterns root_dir output_file extensions directory cs _ hmem rfl

/-- C4: A directory whose (separator-free) name starts with a dot is
excluded by the policy, and every walk skips it without descending: the
content walk, both counting walks, the structural-listing loop and the
listed-path extraction all produce the same result whether the dot-named
directory subtree is present or absent. -/
theorem dot_directory_pruned (patterns : List String) (root_dir output_file : String)
    (extensions : List String) (dirPath n indent : String) (cs t : FSList)
    (hdot : chHeadIs n.data '.' = true) (hslash : '/' ∉ n.data) :
    is_ignored (os_join dirPath n) true patterns root_dir output_file extensions = true
    ∧ emit_sub patterns root_dir output_file extensions dirPath (.cons (.dir n cs) t)
        = emit_sub patterns root_dir output_file extensions dirPath t
    ∧ count_files_sub patterns root_dir output_file extensions dirPath (.cons (.dir n cs) t)
        = count_files_sub patterns root_dir output_file extensions dirPath t
    ∧ count_excluded_sub patterns root_dir output_file extensions dirPath (.cons (.dir n cs) t)
        = count_excluded_sub patterns root_dir output_file extensions dirPath t
    ∧ gds_dir_items patterns root_dir output_file extensions dirPath indent (.cons (.dir n cs) t)
        = gds_dir_items patterns root_dir output_file extensions dirPath indent t
    ∧ listed_dir_paths patterns root_dir output_file extensions dirPath (.cons (.dir n cs) t)
        = listed_dir_paths patterns root_dir output_file extensions dirPath t := by
  have hne : n ≠ "" := by
    intro h
    subst h
    simp [chHeadIs] at hdot
  have hb : os_basename (os_join dirPath n) = n := os_basename_join dirPath n hslash hne
  have hig : is_ignored (os_join dirPath n) true patterns root_dir output_file extensions = true :=
    is_ignored_dotdir _ _ _ _ _ (by rw [hb]; exact hdot)
  refine ⟨hig, ?_, ?_, ?_, gds_dir_items_skip _ _ _ _ _ _ _ _ _ hig, ?_⟩
  · simp [emit_sub, hig]
  · simp [count_files_sub, hig]
  · simp [count_excluded_sub, hig]
  · rw [listed_dir_paths]
    simp [hig]

/-- C4 witness: the theorem applied to the directory name `.git` with a
one-file subtree. -/
theorem dot_directory_pruned_witness :
    chHeadIs ".git".data '.' = true
    ∧ is_ignored (os_join "/r" ".git") true ["build/"] "/r" "/r.txt" [] = true
    ∧ emit_sub ["build/"] "/r" "/r.txt" [] "/r"
        (.cons (.dir ".git" (.cons (.file "HEAD" 4 (.text "ref:")) .nil)) .nil)
      = emit_sub ["build/"] "/r" "/r.txt" [] "/r" .nil := by
  have h := dot_directory_pruned ["build/"] "/r" "/r.txt" [] "/r" ".git" ""
    (.cons (.file "HEAD" 4 (.text "ref:")) .nil) .nil (by decide) (by decide)
  exact ⟨by decide, h.1, h.2.1⟩

/-- C5 counterexample: in the spec §8 round-trip scenario the `.gitignore`
file itself survives every rule (the hidden-name rule covers directories
only), so the content section is not the single entry `a.py` and the
statistics line does not read `Total files included: 1`. -/
theorem roundtrip_scenario_counterexample :
    ¬ ((process_directory_contents (process_patterns c5_tree) "/r" "/r.txt" [] c5_tree).map
        (fun e => (e.2.1, e.2.2)) = [("a.py", "print(1)\n\n")])
    ∧ ¬ ((gds_stats (process_patterns c5_tree) "/r" "/r.txt" [] "/r" c5_tree).contains
        "   Total files included: 1" = true) := by
  constructor
  · decide
  · decide

/-- C5 amended: in that scenario the content section holds exactly two
entries, `.gitignore` (body `"build/\n\n"`) and `a.py` (body
`"print(1)\n\n"`), in walk order, and the statistics block reads
`Total files included: 2`. -/
theorem roundtrip_scenario_amended :
    (process_directory_contents (process_patterns c5_tree) "/r" "/r.txt" [] c5_tree).map
        (fun e => (e.2.1, e.2.2))
      = [(".gitignore", "build/\n\n"), ("a.py", "print(1)\n\n")]
    ∧ gds_stats (process_patterns c5_tree) "/r" "/r.txt" [] "/r" c5_tree
      = ["", "📊 STATISTICS:", "   Total files included: 2",
         "   Total files excluded: 0", "   Total files: 2"] := by
  constructor
  · decide
  · decide

/-- C6 counterexample: on a tree whose only file sits inside a hidden
directory and carries `cache` in its name, `count_excluded_files` reports 0
while the full-tree count of entries with an Exclude verdict is 1 (and the
included count is 0, so the reported total misses the file entirely): the
excluded statistic is not a full-tree count. -/
theorem stats_fulltree_counterexample :
    count_excluded_files [".git/"] "/r" "/r.txt" [] "/r" c6_tree = 0
    ∧ fulltree_excluded_count [".git/"] "/r" "/r.txt" [] "/r" c6_tree = 1
    ∧ count_files [".git/"] "/r" "/r.txt" [] "/r" c6_tree = 0 := by
  refine ⟨by decide, by decide, by decide⟩

/-- C6 amended: the statistics block reports `count_files` (the full-tree
count of included files), `count_excluded_files` (files with an Exclude
verdict reachable by the pruned walk — files beneath an excluded directory
are counted in neither total), and the total line is their sum, which
equals the number of files the pruned walk visits. -/
theorem stats_reported_amended (patterns : List String) (root_dir output_file : String)
    (extensions : List String) (directory : String) (cs : FSList) :
    gds_stats patterns root_dir output_file extensions directory cs
      = ["", "📊 STATISTICS:",
         "   Total files included: "
           ++ toString (count_files patterns root_dir output_file extensions directory cs),
         "   Total files excluded: "
           ++ toString (count_excluded_files patterns root_dir output_file extensions directory cs),
         "   Total files: "
           ++ toString (count_files patterns root_dir output_file extensions directory cs
              + count_excluded_files patterns root_dir output_file extensions directory cs)]
    ∧ count_files patterns root_dir output_file extensions directory cs
      = (walk_included patterns root_dir output_file extensions directory cs).length
    ∧ count_files patterns root_dir output_file extensions directory cs
        + count_excluded_files patterns root_dir output_file extensions directory cs
      = walk_reachable_count patterns root_dir output_file extensions directory cs := by
  refine ⟨rfl, ?_, ?_⟩
  · simp [count_files, walk_included, count_files_here_length, count_files_sub_length]
  · have h1 := counts_here_split patterns root_dir output_file extensions directory cs
    have h2 := counts_sub_split patterns root_dir output_file extensions directory cs
    simp only [count_files, count_excluded_files, walk_reachable_count]
    omega

/-- C7: The exclusion verdict is invariant under permuting the pattern
list: any single match excludes and there is no negation, so source order
is irrelevant. -/
theorem is_ignored_perm_invariant (path : String) (isDir : Bool)
    (patterns1 patterns2 : List String) (root output_file : String)
    (extensions : List String) (h : patterns1.Perm patterns2) :
    is_ignored path isDir patterns1 root output_file extensions
      = is_ignored path isDir patterns2 root output_file extensions := by
  simp only [is_ignored]
  rw [any_eq_of_perm _ h]

/-- C7 witness: the theorem applied to a two-pattern list and its swap. -/
theorem is_ignored_perm_invariant_witness :
    is_ignored "/r/a.txt" false ["build/", ".git/"] "/r" "/r.txt" []
      = is_ignored "/r/a.txt" false [".git/", "build/"] "/r" "/r.txt" [] :=
  is_ignored_perm_invariant "/r/a.txt" false ["build/", ".git/"] [".git/", "build/"]
    "/r" "/r.txt" [] (by decide)

/-- C8: A file whose decoding fails is reported with the binary placeholder
body, any other read failure with the inline error marker, and the set of
files the content walk processes does not depend on the read outcomes at
all — so no per-entry failure aborts or truncates the walk. -/
theorem per_file_errors_localized (m : String) (g : FileContent → FileContent)
    (patterns : List String) (root_dir output_file : String)
    (extensions : List String) (cs : FSList) :
    file_body .binary = "[Binary file - contents not displayed]\n\n"
    ∧ file_body (.readError m) = "[Error reading file: " ++ m ++ "]\n\n"
    ∧ (process_directory_contents patterns root_dir output_file extensions
          (map_contents g cs)).map (fun e => (e.1, e.2.1))
      = (process_directory_contents patterns root_dir output_file extensions cs).map
          (fun e => (e.1, e.2.1)) := by
  refine ⟨rfl, rfl, ?_⟩
  simp [process_directory_contents, emit_files_here_map_contents, emit_sub_map_contents]

/-- C9 counterexample: the dot-file `.mycache` is excluded by rule 3 (the
`cache` substring check applies to files too) although no pattern and no
extension filter is in force — so it is not true that rules 1-4 never
exclude a non-directory entry whose basename starts with a dot. -/
theorem hidden_file_cache_counterexample :
    chHeadIs (os_basename "/r/.mycache").data '.' = true
    ∧ is_ignored "/r/.mycache" false [] "/r" "/r.txt" [] = true := by
  refine ⟨by decide, by decide⟩

/-- C9 amended: for a non-directory entry whose basename starts with a dot,
the hidden-name rule (rule 2) never fires — but rules 1, 3, 4 apply to it
as to any file; when the entry is not the output artifact and triggers
neither the `cache` substring rule nor the digit-run rule, its verdict is
exactly the pattern rule or the extension filter. -/
theorem hidden_file_rules_amended (path : String) (patterns : List String)
    (root output_file : String) (extensions : List String)
    (hdot : chHeadIs (os_basename path).data '.' = true)
    (hout : path ≠ output_file)
    (hcache : containsSub "cache".data (lowerChars (os_basename path).data) = false)
    (hrun : hasDigitRun5 (os_basename path).data = false) :
    is_ignored path false patterns root output_file extensions
      = (patterns.any (fun pattern => pattern_matches path false root pattern)
         || (!extensions.isEmpty
             && !(extensions.contains
                  (String.mk (lowerChars ((os_splitext_ext path).data.drop 1)))))) := by
  have h1 : (os_abspath path == os_abspath output_file) = false := by
    simp only [os_abspath, beq_eq_false_iff_ne, ne_eq]
    exact hout
  simp only [is_ignored, h1, Bool.false_eq_true, if_false, Bool.false_and, hcache, hrun,
    Bool.not_false, Bool.true_and]
  cases hany : patterns.any (fun pattern => pattern_matches path false root pattern) <;>
    cases hext : (!extensions.isEmpty
        && !(extensions.contains
          (String.mk (lowerChars ((os_splitext_ext path).data.drop 1))))) <;>
    simp [hany, hext]

/-- C9 witness: the `.gitignore` file itself, with only the default `.git/`
pattern and no extension filter, is included. -/
theorem hidden_file_rules_amended_witness :
    is_ignored "/r/.gitignore" false [".git/"] "/r" "/r.txt" [] = false :=
  (hidden_file_rules_amended "/r/.gitignore" [".git/"] "/r" "/r.txt" []
    (by decide) (by decide) (by decide) (by decide)).trans (by decide)

/-- C10 counterexample: the argument `py,` yields the non-empty allow-list
`["py", ""]`, which contains the empty string, and the extensionless file
`Makefile` is then not excluded: non-emptiness of the allow-list alone does
not force exclusion of extensionless files. -/
theorem extensionless_allowlist_counterexample :
    main_extensions "py," ≠ []
    ∧ os_splitext_ext "/r/Makefile" = ""
    ∧ is_ignored "/r/Makefile" false [] "/r" "/r.txt" (main_extensions "py,") = false := by
  refine ⟨by decide, by decide, by decide⟩

/-- C10 amended: whenever the allow-list built by `main` from the
comma-separated argument is non-empty and does not contain the empty
string, every file whose basename has no extension is excluded. -/
theorem extensionless_excluded_amended (s path : String) (patterns : List String)
    (root output_file : String)
    (hs : main_extensions s ≠ [])
    (hempty : "" ∉ main_extensions s)
    (hext : os_splitext_ext path = "") :
    is_ignored path false patterns root output_file (main_extensions s) = true := by
  simp only [is_ignored]
  split_ifs with h1 h2 h3 h4 h5 h6 <;> try rfl
  exfalso
  apply h6
  rw [hext]
  simp only [Bool.not_false, Bool.true_and, Bool.and_eq_true, Bool.not_eq_true']
  constructor
  · simpa [List.isEmpty_iff] using hs
  · simpa using hempty

/-- C10 witness: with allow-list `py`, the extensionless `Makefile` is
excluded. -/
theorem extensionless_excluded_amended_witness :
    is_ignored "/r/Makefile" false [] "/r" "/r.txt" (main_extensions "py") = true :=
  extensionless_excluded_amended "py" "/r/Makefile" [] "/r" "/r.txt"
    (by decide) (by decide) (by decide)
